import Mathlib

/-!
Verification development for the `actix-web-httpauth` middleware crate.

The development shallowly embeds `src/middleware.rs` (the
`HttpAuthentication` / `AuthenticationMiddleware` service) and, where the
claims need them, the credential extractors that the middleware invokes.
The extractor sources (`crate::extractors::{basic, bearer, AuthExtractor}`)
are not part of the provided sources, so those definitions are modelled
from the specification; every such definition is marked in its doc comment.

Two complementary models are used:
* a pure, single-request model of `AuthenticationMiddleware::call`
  (the `extract → process_fn → service` combinator chain), and
* a small-step scheduler model of several concurrent calls sharing the
  `futures_locks::Mutex<S>` around the downstream service, exposing where
  the mutex guard is acquired (when `inner.lock()` resolves) and dropped
  (when the `and_then` closure returns, right after `service.call(req)`
  has produced its future).
-/

namespace ActixWebHttpAuth

/-! ## Base64 (RFC 4648 standard alphabet)

Modelled from the spec: the Basic extractor is not in the provided
sources; spec §4.1 requires the remainder of the header value to be
valid base64. Bytes are represented as `Nat` with an explicit `< 256`
bound where it matters. -/

def b64Alphabet : List Char :=
  "ABCDEFGHIJKLMNOPQRSTUVWXYZabcdefghijklmnopqrstuvwxyz0123456789+/".toList

/-- The base64 character for a 6-bit index. -/
def encChar (i : Nat) : Char := b64Alphabet.getD i '?'

/-- The 6-bit index of a base64 character, `none` for chars outside the alphabet. -/
def decChar (c : Char) : Option Nat := b64Alphabet.findIdx? (fun x => x == c)

theorem decChar_encChar : ∀ i : Nat, i < 64 → decChar (encChar i) = some i := by decide

theorem encChar_ne_pad : ∀ i : Nat, i < 64 → ¬ encChar i = '=' := by decide

/-- Base64 encoding of a byte sequence, with `=` padding. -/
def b64encode : List Nat → List Char
  | [] => []
  | [a] => [encChar (a / 4), encChar (a % 4 * 16), '=', '=']
  | [a, b] => [encChar (a / 4), encChar (a % 4 * 16 + b / 16), encChar (b % 16 * 4), '=']
  | a :: b :: c :: rest =>
      encChar (a / 4) :: encChar (a % 4 * 16 + b / 16) :: encChar (b % 16 * 4 + c / 64)
        :: encChar (c % 64) :: b64encode rest

/-- Strict base64 decoding: input must be a sequence of 4-character groups,
padding only in the final group, zero trailing bits. -/
def b64decode : List Char → Option (List Nat)
  | [] => some []
  | c1 :: c2 :: c3 :: c4 :: rest =>
    (decChar c1).bind fun i1 =>
    (decChar c2).bind fun i2 =>
    if c3 = '=' then
      if c4 = '=' then
        if rest = [] then
          if i2 % 16 = 0 then some [i1 * 4 + i2 / 16] else none
        else none
      else none
    else
      (decChar c3).bind fun i3 =>
      if c4 = '=' then
        if rest = [] then
          if i3 % 4 = 0 then some [i1 * 4 + i2 / 16, i2 % 16 * 16 + i3 / 4] else none
        else none
      else
        (decChar c4).bind fun i4 =>
        (b64decode rest).map fun tail =>
          (i1 * 4 + i2 / 16) :: (i2 % 16 * 16 + i3 / 4) :: (i3 % 4 * 64 + i4) :: tail
  | _ => none

theorem b64_roundtrip : ∀ l : List Nat, (∀ x ∈ l, x < 256) →
    b64decode (b64encode l) = some l
  | [] => fun _ => rfl
  | [a] => fun h => by
      have ha : a < 256 := h a (by simp)
      have d1 := decChar_encChar (a / 4) (by omega)
      have d2 := decChar_encChar (a % 4 * 16) (by omega)
      simp [b64encode, b64decode, d1, d2]
      omega
  | [a, b] => fun h => by
      have ha : a < 256 := h a (by simp)
      have hb : b < 256 := h b (by simp)
      have d1 := decChar_encChar (a / 4) (by omega)
      have d2 := decChar_encChar (a % 4 * 16 + b / 16) (by omega)
      have d3 := decChar_encChar (b % 16 * 4) (by omega)
      have hne := encChar_ne_pad (b % 16 * 4) (by omega)
      simp [b64encode, b64decode, d1, d2, d3, hne]
      omega
  | a :: b :: c :: rest => fun h => by
      have ha : a < 256 := h a (by simp)
      have hb : b < 256 := h b (by simp)
      have hc : c < 256 := h c (by simp)
      have ih := b64_roundtrip rest (fun x hx => h x (by simp; tauto))
      have d1 := decChar_encChar (a / 4) (by omega)
      have d2 := decChar_encChar (a % 4 * 16 + b / 16) (by omega)
      have d3 := decChar_encChar (b % 16 * 4 + c / 64) (by omega)
      have d4 := decChar_encChar (c % 64) (by omega)
      have hne3 := encChar_ne_pad (b % 16 * 4 + c / 64) (by omega)
      have hne4 := encChar_ne_pad (c % 64) (by omega)
      simp [b64encode, b64decode, d1, d2, d3, d4, hne3, hne4, ih]
      omega

/-! ## Requests and credential extraction

`ServiceRequest` keeps only what the middleware reads: the header map
(name-insensitive lookup, per spec §3/§6). Header values are `List Char`.
The extractors (`crate::extractors::basic` / `bearer`) are not in the
provided sources; their parsing is modelled from spec §4.1 and §7. -/

/-- Extraction-stage errors. Modelled from the spec: §7 error taxonomy for
the extractors, which are not in the provided sources. -/
inductive AuthError
  | missingHeader
  | invalidFormat
deriving DecidableEq

/-- The pipeline error type (the analogue of `actix_web::Error`): either a
converted authentication error or an opaque non-authentication error. -/
inductive Error
  | auth (e : AuthError)
  | other (code : Nat)
deriving DecidableEq

/-- An inbound request: a header collection queryable by name. -/
structure ServiceRequest where
  headers : List (String × List Char)
deriving DecidableEq

/-- ASCII case-insensitive string comparison. -/
def lowerEq (a b : String) : Bool :=
  a.data.map Char.toLower == b.data.map Char.toLower

/-- Case-insensitive header lookup (spec §6: "has a header collection
queryable by name, case-insensitive"). -/
def getHeader (req : ServiceRequest) (name : String) : Option (List Char) :=
  (req.headers.find? (fun h => lowerEq h.1 name)).map (fun h => h.2)

/-- Split decoded Basic bytes at the first `:` (byte 58): bytes before the
first `:` are the username, the rest is the password. -/
def splitAtFirstColon : List Nat → Option (List Nat × List Nat)
  | [] => none
  | b :: rest =>
      if b = 58 then some ([], rest)
      else (splitAtFirstColon rest).map (fun q => (b :: q.1, q.2))

/-- Modelled from the spec: Basic header-value parsing (§4.1). The value
must start with the literal scheme token (case-insensitive) and a space;
the remainder must decode as base64 and contain a `:` separator. -/
def parseBasicValue (v : List Char) : Except AuthError (List Nat × List Nat) :=
  if (v.take 6).map Char.toLower = "basic ".toList then
    match b64decode (v.drop 6) with
    | none => Except.error AuthError.invalidFormat
    | some bytes =>
      match splitAtFirstColon bytes with
      | none => Except.error AuthError.invalidFormat
      | some q => Except.ok q
  else Except.error AuthError.invalidFormat

/-- Whitespace trimming at both ends of a character list. -/
def trimChars (cs : List Char) : List Char :=
  ((cs.dropWhile Char.isWhitespace).reverse.dropWhile Char.isWhitespace).reverse

/-- Modelled from the spec: Bearer header-value parsing (§4.1). The value
must start with the literal prefix; the remainder, trimmed, becomes the
token verbatim with no further validation, even if empty. -/
def parseBearerValue (v : List Char) : Except AuthError (List Char) :=
  if v.take 7 = "Bearer ".toList then Except.ok (trimChars (v.drop 7))
  else Except.error AuthError.invalidFormat

/-- Modelled from the spec: the Basic extractor's `from_service_request`
(§4.1): look up `Authorization` (case-insensitive); a missing header fails
with `MissingHeader`, otherwise parse the value. -/
def basic_from_service_request (req : ServiceRequest) :
    Except AuthError (List Nat × List Nat) :=
  match getHeader req ("Authorization") with
  | none => Except.error AuthError.missingHeader
  | some v => parseBasicValue v

/-- Modelled from the spec: the Bearer extractor's `from_service_request`
(§4.1). -/
def bearer_from_service_request (req : ServiceRequest) :
    Except AuthError (List Char) :=
  match getHeader req ("Authorization") with
  | none => Except.error AuthError.missingHeader
  | some v => parseBearerValue v

/-- The header value `"Basic " ++ base64(username ++ ":" ++ password)`
(byte 58 is `:`). -/
def mkBasicHeader (u p : List Nat) : List Char :=
  "Basic ".toList ++ b64encode (u ++ 58 :: p)

theorem take_len_append {α : Type} (l₁ l₂ : List α) : (l₁ ++ l₂).take l₁.length = l₁ := by
  induction l₁ with
  | nil => rfl
  | cons a t ih => simp [ih]

theorem drop_len_append {α : Type} (l₁ l₂ : List α) : (l₁ ++ l₂).drop l₁.length = l₂ := by
  induction l₁ with
  | nil => rfl
  | cons a t ih => simp [ih]

theorem splitAtFirstColon_append (u p : List Nat) (h : 58 ∉ u) :
    splitAtFirstColon (u ++ 58 :: p) = some (u, p) := by
  induction u with
  | nil => simp [splitAtFirstColon]
  | cons a t ih =>
    have ha : ¬ a = 58 := fun e => h (by simp [e])
    have ht : 58 ∉ t := fun m => h (List.mem_cons_of_mem a m)
    simp [splitAtFirstColon, ha, ih ht]

theorem getHeader_single (v : List Char) :
    getHeader ⟨[("Authorization", v)]⟩ ("Authorization") = some v := rfl

/-- C6 is false as stated: the universal quantification over usernames
fails for a username that itself contains the `:` separator (byte 58).
For username `"a:b"` and password `"c"`, extraction splits the decoded
bytes at the first `:` and yields username `"a"`, password `"b:c"`, not
the original pair. -/
theorem basic_encode_extract_cex :
    basic_from_service_request ⟨[("Authorization", mkBasicHeader [97, 58, 98] [99])]⟩ =
      Except.ok ([97], [98, 58, 99]) ∧ ([97] : List Nat) ≠ [97, 58, 98] :=
  ⟨rfl, by decide⟩

/-- C6 (amended): for every username that does not contain the `:`
separator (byte 58) and every password (which may contain `:`), building
`"Basic " ++ base64(username ++ ":" ++ password)` and running the Basic
extractor on a request carrying that `Authorization` header yields back
exactly the original username and password. -/
theorem basic_encode_extract (u p : List Nat) (hu : ∀ x ∈ u, x < 256)
    (hp : ∀ x ∈ p, x < 256) (hc : 58 ∉ u) :
    basic_from_service_request ⟨[("Authorization", mkBasicHeader u p)]⟩ =
      Except.ok (u, p) := by
  have hall : ∀ x ∈ u ++ 58 :: p, x < 256 := by
    intro x hx
    rcases List.mem_append.mp hx with h1 | h2
    · exact hu x h1
    · rcases List.mem_cons.mp h2 with e | h3
      · omega
      · exact hp x h3
  have hdec := b64_roundtrip (u ++ 58 :: p) hall
  simp only [basic_from_service_request, getHeader_single, mkBasicHeader, parseBasicValue]
  rw [show (6 : Nat) = ("Basic ".toList).length from rfl, take_len_append, drop_len_append,
    if_pos (by decide), hdec]
  simp [splitAtFirstColon_append u p hc]

/-- C6 witness: the spec §8 end-to-end example, username and password both
`"test"` (bytes `[116, 101, 115, 116]`), round-trips. -/
theorem basic_encode_extract_w :
    basic_from_service_request
        ⟨[("Authorization", mkBasicHeader [116, 101, 115, 116] [116, 101, 115, 116])]⟩ =
      Except.ok ([116, 101, 115, 116], [116, 101, 115, 116]) :=
  basic_encode_extract _ _ (by decide) (by decide) (by decide)

/-- C7 is false as stated: the spec's extractor trims the remainder after
the `"Bearer "` prefix, so for the header value `"Bearer  abc"` (two
spaces) the extracted token is `"abc"`, not the verbatim substring
`" abc"` after the prefix. -/
theorem bearer_token_trimmed_cex :
    parseBearerValue ("Bearer  abc".toList) = Except.ok ("abc".toList)
    ∧ "abc".toList ≠ ("Bearer  abc".toList).drop 7 :=
  ⟨rfl, by decide⟩

/-- C7 (amended): for every header value starting with the literal
`"Bearer "` prefix, extraction succeeds and the token is the remainder
after that prefix with surrounding whitespace trimmed (spec §4.1),
including the empty remainder; a value lacking the prefix fails with
`InvalidFormat`. -/
theorem bearer_token_trimmed :
    (∀ rest : List Char,
      parseBearerValue ("Bearer ".toList ++ rest) = Except.ok (trimChars rest))
    ∧ (∀ v : List Char, v.take 7 ≠ "Bearer ".toList →
      parseBearerValue v = Except.error AuthError.invalidFormat) := by
  constructor
  · intro rest
    rw [parseBearerValue,
      show (7 : Nat) = ("Bearer ".toList).length from rfl, take_len_append,
      drop_len_append, if_pos rfl]
  · intro v hv
    rw [parseBearerValue, if_neg hv]

/-- C7 witness: a well-formed `"Bearer abc"` value extracts token `"abc"`,
and a value without the prefix is rejected as `InvalidFormat`. -/
theorem bearer_token_trimmed_w :
    parseBearerValue ("Bearer ".toList ++ "abc".toList) = Except.ok (trimChars ("abc".toList))
    ∧ parseBearerValue ("Basic x".toList) = Except.error AuthError.invalidFormat :=
  ⟨bearer_token_trimmed.1 ("abc".toList), bearer_token_trimmed.2 ("Basic x".toList) (by decide)⟩

/-! ## The middleware: pure single-call model

From `src/middleware.rs`. `AuthenticationMiddleware<S, F, T>` holds the
downstream service behind `Mutex<S>` (`service`), the validator callback
`Arc<F>` (`process_fn`), and the extractor type parameter `T`
(`PhantomData`, whose behavior is the `AuthExtractor::from_service_request`
method, modelled as a function field). A single sequential `call` resolves
the combinator chain
`extract(req).and_then(process_fn).and_then(lock; service.call)` to a
value: each `and_then` short-circuits on `Err`. Since `call` takes
`&mut self` in the source but only clones the `Arc` and the mutex handle
and writes no field, the model returns the middleware unchanged alongside
the result (the mutex, free before a sequential call, is free again after
it; its intra-call behavior is modelled in the scheduler section below).

`Cred` is the credential type produced by the extractor, `B` the
downstream response body type (`ServiceResponse<B>`). -/

structure AuthenticationMiddleware (Cred B : Type) where
  service : ServiceRequest → Except Error B
  process_fn : ServiceRequest → Cred → Except Error ServiceRequest
  from_service_request : ServiceRequest → Except AuthError Cred

/-- The `extract` helper of `src/middleware.rs` (lines 208–216): run the
extractor on the request, convert its error (`map_err(Into::into)`), and
pair the request with the credentials. -/
def extract {Cred B : Type} (m : AuthenticationMiddleware Cred B)
    (req : ServiceRequest) : Except Error (ServiceRequest × Cred) :=
  match m.from_service_request req with
  | Except.error e => Except.error (Error.auth e)
  | Except.ok credentials => Except.ok (req, credentials)

/-- The `AuthenticationMiddleware::call` method (lines 190–205): the resolved value of
the future chain, plus the (unchanged) middleware state. -/
def AuthenticationMiddleware.call {Cred B : Type}
    (m : AuthenticationMiddleware Cred B) (req : ServiceRequest) :
    Except Error B × AuthenticationMiddleware Cred B :=
  (match extract m req with
   | Except.error e => Except.error e
   | Except.ok rc =>
     match m.process_fn rc.1 rc.2 with
     | Except.error e => Except.error e
     | Except.ok req2 => m.service req2,
   m)

/-- C2: a request with no `Authorization` header makes `call` resolve to
the `MissingHeader` authentication error (the framework surfaces it as a
401 with challenge), for the middleware built with either the Basic or the
Bearer extractor. The validator `fb`/`ft` and the downstream service
`sb`/`st` are universally quantified and do not occur in the conclusion:
the outcome is independent of both, which is the pure-model statement that
neither is invoked. -/
theorem missing_header_short_circuits {B : Type} (req : ServiceRequest)
    (h : getHeader req ("Authorization") = none)
    (fb : ServiceRequest → List Nat × List Nat → Except Error ServiceRequest)
    (sb : ServiceRequest → Except Error B)
    (ft : ServiceRequest → List Char → Except Error ServiceRequest)
    (st : ServiceRequest → Except Error B) :
    (AuthenticationMiddleware.call ⟨sb, fb, basic_from_service_request⟩ req).1 =
      Except.error (Error.auth AuthError.missingHeader)
    ∧ (AuthenticationMiddleware.call ⟨st, ft, bearer_from_service_request⟩ req).1 =
      Except.error (Error.auth AuthError.missingHeader) := by
  constructor
  · simp [AuthenticationMiddleware.call, extract, basic_from_service_request, h]
  · simp [AuthenticationMiddleware.call, extract, bearer_from_service_request, h]

/-- C2 witness: the empty request, with a concrete accepting validator and
a concrete downstream service. -/
theorem missing_header_short_circuits_w :
    (AuthenticationMiddleware.call
        (⟨fun _ => Except.ok 0, fun r _ => Except.ok r, basic_from_service_request⟩ :
          AuthenticationMiddleware (List Nat × List Nat) Nat) ⟨[]⟩).1 =
      Except.error (Error.auth AuthError.missingHeader) :=
  (missing_header_short_circuits ⟨[]⟩ rfl (fun r _ => Except.ok r) (fun _ => Except.ok 0)
    (fun r _ => Except.ok r) (fun _ => Except.ok 0)).1

/-- C3: when extraction succeeds and the validator returns an error `e`,
`call` resolves to exactly that error (`and_then` propagates the `Err`
value unchanged). The downstream service `s` is universally quantified and
absent from the conclusion: the outcome is independent of it, which is the
pure-model statement that the downstream handler is never invoked. -/
theorem validator_error_short_circuits {Cred B : Type}
    (fsr : ServiceRequest → Except AuthError Cred)
    (f : ServiceRequest → Cred → Except Error ServiceRequest)
    (req : ServiceRequest) (c : Cred) (e : Error)
    (he : fsr req = Except.ok c) (hv : f req c = Except.error e) :
    ∀ s : ServiceRequest → Except Error B,
      (AuthenticationMiddleware.call ⟨s, f, fsr⟩ req).1 = Except.error e := by
  intro s
  simp [AuthenticationMiddleware.call, extract, he, hv]

/-- C3 witness: the spec §8 Bearer scenario — header
`Authorization: Bearer abc123` with a validator rejecting every token
other than `"xyz"`; `call` yields the validator's error. -/
theorem validator_error_short_circuits_w :
    (AuthenticationMiddleware.call
        (⟨fun _ => Except.ok 0,
          fun r t => if t = "xyz".toList then Except.ok r else Except.error (Error.auth AuthError.invalidFormat),
          bearer_from_service_request⟩ :
          AuthenticationMiddleware (List Char) Nat)
        ⟨[("Authorization", "Bearer abc123".toList)]⟩).1 =
      Except.error (Error.auth AuthError.invalidFormat) :=
  validator_error_short_circuits bearer_from_service_request
    (fun r t => if t = "xyz".toList then Except.ok r else Except.error (Error.auth AuthError.invalidFormat))
    ⟨[("Authorization", "Bearer abc123".toList)]⟩ ("abc123".toList)
    (Error.auth AuthError.invalidFormat) rfl rfl
    (fun _ => Except.ok 0)

/-- C4: when extraction succeeds and the validator accepts (returning the
possibly-updated request `req2`), `call` resolves to exactly the
downstream service's own result on `req2`: a success is passed through
unchanged and an error is propagated unchanged — the result is literally
`m.service req2`, whatever that value is. -/
theorem downstream_passthrough {Cred B : Type}
    (m : AuthenticationMiddleware Cred B) (req req2 : ServiceRequest) (c : Cred)
    (he : m.from_service_request req = Except.ok c)
    (hv : m.process_fn req c = Except.ok req2) :
    (m.call req).1 = m.service req2 := by
  simp [AuthenticationMiddleware.call, extract, he, hv]

/-- C4 witness: one downstream service that fails with an opaque error and
one that succeeds; `call` yields exactly the downstream result in both
cases (spec §8 end-to-end Basic scenario header). -/
theorem downstream_passthrough_w :
    (AuthenticationMiddleware.call
        (⟨fun _ => Except.error (Error.other 7), fun r _ => Except.ok r,
          basic_from_service_request⟩ :
          AuthenticationMiddleware (List Nat × List Nat) Nat)
        ⟨[("Authorization", "Basic dGVzdDp0ZXN0".toList)]⟩).1 =
      Except.error (Error.other 7)
    ∧ (AuthenticationMiddleware.call
        (⟨fun _ => Except.ok 200, fun r _ => Except.ok r,
          basic_from_service_request⟩ :
          AuthenticationMiddleware (List Nat × List Nat) Nat)
        ⟨[("Authorization", "Basic dGVzdDp0ZXN0".toList)]⟩).1 =
      Except.ok 200 :=
  ⟨downstream_passthrough _ _ _ ([116, 101, 115, 116], [116, 101, 115, 116]) rfl rfl,
   downstream_passthrough _ _ _ ([116, 101, 115, 116], [116, 101, 115, 116]) rfl rfl⟩

/-- C8: with extraction succeeding on `req` and an always-accepting
validator, `call` forwards to the downstream service, and no field of the
middleware is mutated by the call (the source's `call` only clones the
`Arc` and the mutex handle): the state returned is the middleware itself,
and a second call on that state is the same independent forwarding with
an identical outcome. -/
theorem call_stateless_idempotent {Cred B : Type}
    (m : AuthenticationMiddleware Cred B) (req : ServiceRequest) (c : Cred)
    (he : m.from_service_request req = Except.ok c)
    (hv : ∀ r cr, m.process_fn r cr = Except.ok r) :
    (m.call req).2 = m ∧ (m.call req).1 = m.service req
    ∧ ((m.call req).2).call req = m.call req := by
  refine ⟨rfl, ?_, rfl⟩
  simp [AuthenticationMiddleware.call, extract, he, hv]

/-- C8 witness: a concrete Bearer middleware with an accepting validator;
two sequential calls on the same request agree and leave the middleware
unchanged. -/
theorem call_stateless_idempotent_w :
    ((AuthenticationMiddleware.call
        (⟨fun _ => Except.ok 7, fun r _ => Except.ok r, bearer_from_service_request⟩ :
          AuthenticationMiddleware (List Char) Nat)
        ⟨[("Authorization", "Bearer abc".toList)]⟩).1 =
      Except.ok 7) ∧
    ((AuthenticationMiddleware.call
        (⟨fun _ => Except.ok 7, fun r _ => Except.ok r, bearer_from_service_request⟩ :
          AuthenticationMiddleware (List Char) Nat)
        ⟨[("Authorization", "Bearer abc".toList)]⟩).2 =
      ⟨fun _ => Except.ok 7, fun r _ => Except.ok r, bearer_from_service_request⟩) := by
  have h := call_stateless_idempotent
    (⟨fun _ => Except.ok 7, fun r _ => Except.ok r, bearer_from_service_request⟩ :
      AuthenticationMiddleware (List Char) Nat)
    ⟨[("Authorization", "Bearer abc".toList)]⟩ ("abc".toList) rfl (fun _ _ => rfl)
  exact ⟨h.2.1, h.1⟩

/-! ## The middleware: concurrent scheduler model

Several `call` futures of one `AuthenticationMiddleware` instance run
concurrently, sharing the `futures_locks::Mutex<S>` (`self.service`). Per
task, `call` is (middleware.rs lines 190–205)
`extract(req).and_then(process_fn).and_then(inner.lock().…​.and_then(|mut service| service.call(req)))`.
The guard `service` is a local of the inner closure: it is acquired when
`inner.lock()` resolves, `service.call(req)` is then run to produce the
downstream future, and the guard is dropped when the closure returns —
before the downstream future is first polled. The phases of one task:

* `start`: future created, not yet polled (extraction not yet run);
* `validating`: extraction succeeded, validator future pending;
* `acquiring`: validator accepted, `inner.lock()` pending;
* `holdingLock`: lock future resolved, guard held, `service.call` about
  to run — a micro-step inside one poll;
* `dispatched`: `service.call(req)` has returned the downstream future,
  guard still alive — a micro-step inside the same poll;
* `awaitingDown`: guard dropped, downstream future pending;
* `done`: downstream future resolved;
* `cancelled`: the enclosing task was dropped.

`holdingLock` and `dispatched` lie inside a single poll of the combinator
chain — no `await` separates them — so a task cannot be cancelled there
(dropping a future happens between polls); cancellation is possible at
every suspension point (`start`, `validating`, `acquiring`,
`awaitingDown`). Interleaving of micro-steps by other tasks is allowed;
this is a superset of the single-threaded behaviors, so proved invariants
also hold for cooperative scheduling. All tasks in this model pass
extraction and validation (the premise of the concurrency claims);
rejected paths never reach the lock and are covered by the pure model. -/

inductive Phase
  | start
  | validating
  | acquiring
  | holdingLock
  | dispatched
  | awaitingDown
  | done
  | cancelled
deriving DecidableEq

/-- Global state: per-task phases, and the mutex (`none` = unlocked,
`some i` = the guard of task `i` is alive). -/
structure GState where
  tasks : List Phase
  lock : Option Nat
deriving DecidableEq

/-- The phase of task `i` (out-of-range tasks read as `done`). -/
def phaseOf (s : GState) (i : Nat) : Phase := s.tasks.getD i Phase.done

/-- Scheduler actions: poll the future of task `i`, resolve the downstream
future of task `i`, or cancel (drop) the future of task `i`. -/
inductive Act
  | poll (i : Nat)
  | finishDown (i : Nat)
  | cancel (i : Nat)

/-- One scheduler step. -/
def step (s : GState) : Act → GState
  | Act.poll i =>
    match phaseOf s i with
    | Phase.start => { s with tasks := s.tasks.set i Phase.validating }
    | Phase.validating =>
      match s.lock with
      | none => ⟨s.tasks.set i Phase.holdingLock, some i⟩
      | some _ => { s with tasks := s.tasks.set i Phase.acquiring }
    | Phase.acquiring =>
      match s.lock with
      | none => ⟨s.tasks.set i Phase.holdingLock, some i⟩
      | some _ => s
    | Phase.holdingLock => { s with tasks := s.tasks.set i Phase.dispatched }
    | Phase.dispatched => ⟨s.tasks.set i Phase.awaitingDown, none⟩
    | _ => s
  | Act.finishDown i =>
    match phaseOf s i with
    | Phase.awaitingDown => { s with tasks := s.tasks.set i Phase.done }
    | _ => s
  | Act.cancel i =>
    match phaseOf s i with
    | Phase.start => { s with tasks := s.tasks.set i Phase.cancelled }
    | Phase.validating => { s with tasks := s.tasks.set i Phase.cancelled }
    | Phase.acquiring => { s with tasks := s.tasks.set i Phase.cancelled }
    | Phase.awaitingDown => { s with tasks := s.tasks.set i Phase.cancelled }
    | _ => s

/-- Run a sequence of scheduler actions. -/
def run (s : GState) (acts : List Act) : GState := acts.foldl step s

/-- A pool of `n` concurrent calls, none polled yet, mutex free. -/
def init (n : Nat) : GState := ⟨List.replicate n Phase.start, none⟩

/-- Phases during which the task's `MutexGuard` is alive. -/
def lockedPhase : Phase → Bool
  | Phase.holdingLock => true
  | Phase.dispatched => true
  | _ => false

/-- Phases during which a downstream invocation is in flight: from the
moment `service.call(req)` has run until its future resolves. -/
def downInFlight : Phase → Bool
  | Phase.dispatched => true
  | Phase.awaitingDown => true
  | _ => false

/-- Number of overlapping in-flight downstream invocations. -/
def inFlightDown (s : GState) : Nat := (s.tasks.filter downInFlight).length

theorem getD_set_self {α : Type} (l : List α) (i : Nat) (v d : α)
    (h : i < l.length) : (l.set i v).getD i d = v := by
  induction l generalizing i with
  | nil => simp at h
  | cons a t ih =>
    cases i with
    | zero => rfl
    | succ n => exact ih n (Nat.lt_of_succ_lt_succ h)

theorem getD_set_ne {α : Type} (l : List α) (i j : Nat) (v d : α)
    (h : i ≠ j) : (l.set i v).getD j d = l.getD j d := by
  induction l generalizing i j with
  | nil => rfl
  | cons a t ih =>
    cases i with
    | zero =>
      cases j with
      | zero => exact absurd rfl h
      | succ m => rfl
    | succ n =>
      cases j with
      | zero => rfl
      | succ m => exact ih n m (fun e => h (congrArg Nat.succ e))

theorem getD_len_le {α : Type} (l : List α) (i : Nat) (d : α)
    (h : l.length ≤ i) : l.getD i d = d := by
  induction l generalizing i with
  | nil => rfl
  | cons a t ih =>
    cases i with
    | zero => simp at h
    | succ n => exact ih n (Nat.le_of_succ_le_succ h)

theorem phase_lt_length (s : GState) (i : Nat) (h : phaseOf s i ≠ Phase.done) :
    i < s.tasks.length := by
  by_contra hle
  exact h (getD_len_le s.tasks i Phase.done (Nat.le_of_not_lt hle))

/-- The mutex invariant: a task whose guard phase is alive is the lock
owner, and the lock owner's guard phase is alive. -/
def LockInv (s : GState) : Prop :=
  (∀ j, lockedPhase (phaseOf s j) = true → s.lock = some j)
  ∧ (∀ j, s.lock = some j → lockedPhase (phaseOf s j) = true)

theorem lockInv_init (n : Nat) : LockInv (init n) := by
  constructor
  · intro j hj
    exfalso
    revert hj
    unfold phaseOf init
    induction n generalizing j with
    | zero => intro hj; cases hj
    | succ k ih =>
      cases j with
      | zero => intro hj; cases hj
      | succ m => exact ih m
  · intro j hj
    cases hj

theorem lockInv_step (s : GState) (a : Act) (h : LockInv s) : LockInv (step s a) := by
  obtain ⟨h1, h2⟩ := h
  cases a with
  | poll i =>
    cases hp : phaseOf s i with
    | start =>
      have hlen := phase_lt_length s i (by rw [hp]; intro e; cases e)
      simp only [step, hp]
      constructor
      · intro j hj
        by_cases hij : j = i
        · subst hij
          rw [show phaseOf ⟨s.tasks.set j Phase.validating, s.lock⟩ j = Phase.validating from
            getD_set_self s.tasks j Phase.validating Phase.done hlen] at hj
          cases hj
        · rw [show phaseOf ⟨s.tasks.set i Phase.validating, s.lock⟩ j = phaseOf s j from
            getD_set_ne s.tasks i j Phase.validating Phase.done (fun e => hij e.symm)] at hj
          exact h1 j hj
      · intro j hj
        have hold := h2 j hj
        have hij : j ≠ i := by
          intro e
          rw [e, hp] at hold
          cases hold
        rw [show phaseOf ⟨s.tasks.set i Phase.validating, s.lock⟩ j = phaseOf s j from
          getD_set_ne s.tasks i j Phase.validating Phase.done (fun e => hij e.symm)]
        exact hold
    | validating =>
      have hlen := phase_lt_length s i (by rw [hp]; intro e; cases e)
      cases hl : s.lock with
      | none =>
        simp only [step, hp, hl]
        constructor
        · intro j hj
          by_cases hij : j = i
          · rw [hij]
          · rw [show phaseOf ⟨s.tasks.set i Phase.holdingLock, some i⟩ j = phaseOf s j from
              getD_set_ne s.tasks i j Phase.holdingLock Phase.done (fun e => hij e.symm)] at hj
            have := h1 j hj
            rw [hl] at this
            cases this
        · intro j hj
          cases hj
          rw [show phaseOf ⟨s.tasks.set i Phase.holdingLock, some i⟩ i = Phase.holdingLock from
            getD_set_self s.tasks i Phase.holdingLock Phase.done hlen]
          rfl
      | some k =>
        simp only [step, hp, hl]
        constructor
        · intro j hj
          by_cases hij : j = i
          · subst hij
            rw [show phaseOf (⟨s.tasks.set j Phase.acquiring, some k⟩ : GState) j =
                Phase.acquiring from
              getD_set_self s.tasks j Phase.acquiring Phase.done hlen] at hj
            cases hj
          · rw [show phaseOf (⟨s.tasks.set i Phase.acquiring, some k⟩ : GState) j =
                phaseOf s j from
              getD_set_ne s.tasks i j Phase.acquiring Phase.done (fun e => hij e.symm)] at hj
            exact hl.symm.trans (h1 j hj)
        · intro j hj
          have hold := h2 j (hl.trans hj)
          have hij : j ≠ i := by
            intro e
            rw [e, hp] at hold
            cases hold
          rw [show phaseOf (⟨s.tasks.set i Phase.acquiring, some k⟩ : GState) j =
              phaseOf s j from
            getD_set_ne s.tasks i j Phase.acquiring Phase.done (fun e => hij e.symm)]
          exact hold
    | acquiring =>
      have hlen := phase_lt_length s i (by rw [hp]; intro e; cases e)
      cases hl : s.lock with
      | none =>
        simp only [step, hp, hl]
        constructor
        · intro j hj
          by_cases hij : j = i
          · rw [hij]
          · rw [show phaseOf ⟨s.tasks.set i Phase.holdingLock, some i⟩ j = phaseOf s j from
              getD_set_ne s.tasks i j Phase.holdingLock Phase.done (fun e => hij e.symm)] at hj
            have := h1 j hj
            rw [hl] at this
            cases this
        · intro j hj
          cases hj
          rw [show phaseOf ⟨s.tasks.set i Phase.holdingLock, some i⟩ i = Phase.holdingLock from
            getD_set_self s.tasks i Phase.holdingLock Phase.done hlen]
          rfl
      | some k =>
        simp only [step, hp, hl]
        exact ⟨h1, h2⟩
    | holdingLock =>
      have hlen := phase_lt_length s i (by rw [hp]; intro e; cases e)
      have hown : s.lock = some i := h1 i (by rw [hp]; rfl)
      simp only [step, hp]
      constructor
      · intro j hj
        by_cases hij : j = i
        · rw [hij, hown]
        · rw [show phaseOf ⟨s.tasks.set i Phase.dispatched, s.lock⟩ j = phaseOf s j from
            getD_set_ne s.tasks i j Phase.dispatched Phase.done (fun e => hij e.symm)] at hj
          exact h1 j hj
      · intro j hj
        have : j = i := by
          rw [hown] at hj
          cases hj
          rfl
        subst this
        rw [show phaseOf ⟨s.tasks.set j Phase.dispatched, s.lock⟩ j = Phase.dispatched from
          getD_set_self s.tasks j Phase.dispatched Phase.done hlen]
        rfl
    | dispatched =>
      have hown : s.lock = some i := h1 i (by rw [hp]; rfl)
      have hlen := phase_lt_length s i (by rw [hp]; intro e; cases e)
      simp only [step, hp]
      constructor
      · intro j hj
        by_cases hij : j = i
        · subst hij
          rw [show phaseOf ⟨s.tasks.set j Phase.awaitingDown, none⟩ j = Phase.awaitingDown from
            getD_set_self s.tasks j Phase.awaitingDown Phase.done hlen] at hj
          cases hj
        · rw [show phaseOf ⟨s.tasks.set i Phase.awaitingDown, none⟩ j = phaseOf s j from
            getD_set_ne s.tasks i j Phase.awaitingDown Phase.done (fun e => hij e.symm)] at hj
          have := h1 j hj
          rw [hown] at this
          cases this
          exact absurd rfl hij
      · intro j hj
        cases hj
    | awaitingDown =>
      simp only [step, hp]
      exact ⟨h1, h2⟩
    | done =>
      simp only [step, hp]
      exact ⟨h1, h2⟩
    | cancelled =>
      simp only [step, hp]
      exact ⟨h1, h2⟩
  | finishDown i =>
    cases hp : phaseOf s i with
    | awaitingDown =>
      have hlen := phase_lt_length s i (by rw [hp]; intro e; cases e)
      simp only [step, hp]
      constructor
      · intro j hj
        by_cases hij : j = i
        · subst hij
          rw [show phaseOf ⟨s.tasks.set j Phase.done, s.lock⟩ j = Phase.done from
            getD_set_self s.tasks j Phase.done Phase.done hlen] at hj
          cases hj
        · rw [show phaseOf ⟨s.tasks.set i Phase.done, s.lock⟩ j = phaseOf s j from
            getD_set_ne s.tasks i j Phase.done Phase.done (fun e => hij e.symm)] at hj
          exact h1 j hj
      · intro j hj
        have hold := h2 j hj
        have hij : j ≠ i := by
          intro e
          rw [e, hp] at hold
          cases hold
        rw [show phaseOf ⟨s.tasks.set i Phase.done, s.lock⟩ j = phaseOf s j from
          getD_set_ne s.tasks i j Phase.done Phase.done (fun e => hij e.symm)]
        exact hold
    | start =>
      simp only [step, hp]
      exact ⟨h1, h2⟩
    | validating =>
      simp only [step, hp]
      exact ⟨h1, h2⟩
    | acquiring =>
      simp only [step, hp]
      exact ⟨h1, h2⟩
    | holdingLock =>
      simp only [step, hp]
      exact ⟨h1, h2⟩
    | dispatched =>
      simp only [step, hp]
      exact ⟨h1, h2⟩
    | done =>
      simp only [step, hp]
      exact ⟨h1, h2⟩
    | cancelled =>
      simp only [step, hp]
      exact ⟨h1, h2⟩
  | cancel i =>
    cases hp : phaseOf s i with
    | start =>
      have hlen := phase_lt_length s i (by rw [hp]; intro e; cases e)
      constructor
      · intro j hj
        by_cases hij : j = i
        · subst hij
          rw [show phaseOf (step s (Act.cancel j)) j = Phase.cancelled from by
            simp only [step, hp]
            exact getD_set_self s.tasks j Phase.cancelled Phase.done hlen] at hj
          cases hj
        · rw [show phaseOf (step s (Act.cancel i)) j = phaseOf s j from by
            simp only [step, hp]
            exact getD_set_ne s.tasks i j Phase.cancelled Phase.done (fun e => hij e.symm)] at hj
          simp only [step, hp]
          exact h1 j hj
      · intro j hj
        simp only [step, hp] at hj
        have hold := h2 j hj
        have hij : j ≠ i := by
          intro e
          rw [e, hp] at hold
          cases hold
        simp only [step, hp]
        rw [show phaseOf (⟨s.tasks.set i Phase.cancelled, s.lock⟩ : GState) j = phaseOf s j from
          getD_set_ne s.tasks i j Phase.cancelled Phase.done (fun e => hij e.symm)]
        exact hold
    | validating =>
      have hlen := phase_lt_length s i (by rw [hp]; intro e; cases e)
      constructor
      · intro j hj
        by_cases hij : j = i
        · subst hij
          rw [show phaseOf (step s (Act.cancel j)) j = Phase.cancelled from by
            simp only [step, hp]
            exact getD_set_self s.tasks j Phase.cancelled Phase.done hlen] at hj
          cases hj
        · rw [show phaseOf (step s (Act.cancel i)) j = phaseOf s j from by
            simp only [step, hp]
            exact getD_set_ne s.tasks i j Phase.cancelled Phase.done (fun e => hij e.symm)] at hj
          simp only [step, hp]
          exact h1 j hj
      · intro j hj
        simp only [step, hp] at hj
        have hold := h2 j hj
        have hij : j ≠ i := by
          intro e
          rw [e, hp] at hold
          cases hold
        simp only [step, hp]
        rw [show phaseOf (⟨s.tasks.set i Phase.cancelled, s.lock⟩ : GState) j = phaseOf s j from
          getD_set_ne s.tasks i j Phase.cancelled Phase.done (fun e => hij e.symm)]
        exact hold
    | acquiring =>
      have hlen := phase_lt_length s i (by rw [hp]; intro e; cases e)
      constructor
      · intro j hj
        by_cases hij : j = i
        · subst hij
          rw [show phaseOf (step s (Act.cancel j)) j = Phase.cancelled from by
            simp only [step, hp]
            exact getD_set_self s.tasks j Phase.cancelled Phase.done hlen] at hj
          cases hj
        · rw [show phaseOf (step s (Act.cancel i)) j = phaseOf s j from by
            simp only [step, hp]
            exact getD_set_ne s.tasks i j Phase.cancelled Phase.done (fun e => hij e.symm)] at hj
          simp only [step, hp]
          exact h1 j hj
      · intro j hj
        simp only [step, hp] at hj
        have hold := h2 j hj
        have hij : j ≠ i := by
          intro e
          rw [e, hp] at hold
          cases hold
        simp only [step, hp]
        rw [show phaseOf (⟨s.tasks.set i Phase.cancelled, s.lock⟩ : GState) j = phaseOf s j from
          getD_set_ne s.tasks i j Phase.cancelled Phase.done (fun e => hij e.symm)]
        exact hold
    | awaitingDown =>
      have hlen := phase_lt_length s i (by rw [hp]; intro e; cases e)
      constructor
      · intro j hj
        by_cases hij : j = i
        · subst hij
          rw [show phaseOf (step s (Act.cancel j)) j = Phase.cancelled from by
            simp only [step, hp]
            exact getD_set_self s.tasks j Phase.cancelled Phase.done hlen] at hj
          cases hj
        · rw [show phaseOf (step s (Act.cancel i)) j = phaseOf s j from by
            simp only [step, hp]
            exact getD_set_ne s.tasks i j Phase.cancelled Phase.done (fun e => hij e.symm)] at hj
          simp only [step, hp]
          exact h1 j hj
      · intro j hj
        simp only [step, hp] at hj
        have hold := h2 j hj
        have hij : j ≠ i := by
          intro e
          rw [e, hp] at hold
          cases hold
        simp only [step, hp]
        rw [show phaseOf (⟨s.tasks.set i Phase.cancelled, s.lock⟩ : GState) j = phaseOf s j from
          getD_set_ne s.tasks i j Phase.cancelled Phase.done (fun e => hij e.symm)]
        exact hold
    | holdingLock =>
      simp only [step, hp]
      exact ⟨h1, h2⟩
    | dispatched =>
      simp only [step, hp]
      exact ⟨h1, h2⟩
    | done =>
      simp only [step, hp]
      exact ⟨h1, h2⟩
    | cancelled =>
      simp only [step, hp]
      exact ⟨h1, h2⟩

theorem lockInv_run (acts : List Act) (s : GState) (h : LockInv s) :
    LockInv (run s acts) := by
  induction acts generalizing s with
  | nil => exact h
  | cons a t ih => exact ih (step s a) (lockInv_step s a h)

/-- The interleaving falsifying C1: task 0 is polled four times (extract,
validator resolves and the lock is acquired, `service.call` runs, the
guard drops leaving its downstream future pending), then task 1 does the
same while task 0's downstream future is still pending. -/
def overlapTrace : List Act :=
  [Act.poll 0, Act.poll 0, Act.poll 0, Act.poll 0,
   Act.poll 1, Act.poll 1, Act.poll 1, Act.poll 1]

/-- C1 is false as stated: two calls into one middleware instance that
both pass validation can produce two overlapping in-flight downstream
invocations, because the mutex guard is dropped when the `and_then`
closure returns (right after `service.call(req)` produces the downstream
future), not when that future completes. After `overlapTrace`, both tasks
have pending downstream futures at the same time. -/
theorem mutex_dispatch_exclusive_cex :
    1 < inFlightDown (run (init 2) overlapTrace) := by decide

/-- C1 (amended): the mutex around the service does enforce mutual
exclusion of the guard-held critical section — at most one task at a time
is between lock acquisition and guard drop (the synchronous
`service.call` dispatch) — but not of the dispatched downstream futures:
in every reachable state of any number of concurrent calls, any two tasks
whose guard is alive are the same task. -/
theorem mutex_dispatch_exclusive (n : Nat) (acts : List Act) (j k : Nat)
    (hj : lockedPhase (phaseOf (run (init n) acts) j) = true)
    (hk : lockedPhase (phaseOf (run (init n) acts) k) = true) : j = k := by
  have h := lockInv_run acts (init n) (lockInv_init n)
  have e1 := h.1 j hj
  have e2 := h.1 k hk
  rw [e1] at e2
  cases e2
  rfl

/-- C1 witness: after three polls of task 0 among two concurrent calls,
task 0 holds the guard; the amended theorem applies there. -/
theorem mutex_dispatch_exclusive_w :
    lockedPhase (phaseOf (run (init 2) [Act.poll 0, Act.poll 0, Act.poll 0]) 0) = true
    ∧ (0 : Nat) = 0 :=
  ⟨by decide,
   mutex_dispatch_exclusive 2 [Act.poll 0, Act.poll 0, Act.poll 0] 0 0 (by decide) (by decide)⟩

/-- The trace for C5: task 0 runs to `awaitingDown` (downstream future
pending, guard dropped), then task 1 validates, acquires the freed lock
and dispatches. -/
def dispatchTrace : List Act :=
  [Act.poll 0, Act.poll 0, Act.poll 0, Act.poll 0, Act.poll 1, Act.poll 1, Act.poll 1]

/-- C5: exclusive access to the shared downstream service is released
once the handler call has been dispatched, not held until its
asynchronous completion. First conjunct: from any state in which task `i`
has just run `service.call` (phase `dispatched`), the next poll of `i`
drops the guard — the mutex becomes free while `i` is merely awaiting its
downstream future, not done. Second conjunct: concretely, a second
validated request (task 1) enters the downstream handler (`dispatched`)
while the first request's downstream future is still pending
(`awaitingDown`). -/
theorem lock_released_at_dispatch :
    (∀ (s : GState) (i : Nat), phaseOf s i = Phase.dispatched →
      (step s (Act.poll i)).lock = none
      ∧ phaseOf (step s (Act.poll i)) i = Phase.awaitingDown)
    ∧ (phaseOf (run (init 2) dispatchTrace) 0 = Phase.awaitingDown
      ∧ phaseOf (run (init 2) dispatchTrace) 1 = Phase.dispatched) := by
  constructor
  · intro s i hp
    have hlen := phase_lt_length s i (by rw [hp]; intro e; cases e)
    constructor
    · simp only [step, hp]
    · simp only [step, hp]
      exact getD_set_self s.tasks i Phase.awaitingDown Phase.done hlen
  · exact ⟨rfl, rfl⟩

/-- C5 witness: the release-on-dispatch conjunct applied to the concrete
state in which task 0 of two has just dispatched. -/
theorem lock_released_at_dispatch_w :
    (step (run (init 2) [Act.poll 0, Act.poll 0, Act.poll 0]) (Act.poll 0)).lock = none
    ∧ phaseOf (step (run (init 2) [Act.poll 0, Act.poll 0, Act.poll 0]) (Act.poll 0)) 0 =
      Phase.awaitingDown :=
  lock_released_at_dispatch.1 (run (init 2) [Act.poll 0, Act.poll 0, Act.poll 0]) 0 (by decide)

/-- The trace for C9: task 0 is cancelled while suspended at the
validator; task 1 then acquires the downstream service, dispatches, and
its downstream future completes. -/
def cancelTrace : List Act :=
  [Act.poll 0, Act.cancel 0, Act.poll 1, Act.poll 1, Act.poll 1, Act.poll 1, Act.finishDown 1]

/-- C9: the lock on the shared downstream service is never leaked, on any
exit path the model can express. The guard lives only inside a single
poll of the future chain (no suspension point occurs while it is held),
so cancellation — possible at `start`, `validating`, `acquiring` and
`awaitingDown` — never strikes a lock holder. First conjunct: after any
action sequence (including cancellations), if the lock is held it is held
by a live dispatching task and two further polls of that task free it.
Second conjunct: a task awaiting the lock acquires it by its next poll
once the lock is free, so a subsequent unrelated request can still
acquire the handler. Third conjunct: concretely, after task 0 is
cancelled mid-validation, task 1 still acquires the service and runs to
completion with the lock free. -/
theorem lock_never_leaked (n : Nat) (acts : List Act) :
    (∀ i, (run (init n) acts).lock = some i →
      lockedPhase (phaseOf (run (init n) acts) i) = true
      ∧ (run (run (init n) acts) [Act.poll i, Act.poll i]).lock = none)
    ∧ (∀ j, (run (init n) acts).lock = none →
      phaseOf (run (init n) acts) j = Phase.acquiring →
      (step (run (init n) acts) (Act.poll j)).lock = some j)
    ∧ (phaseOf (run (init 2) cancelTrace) 0 = Phase.cancelled
      ∧ phaseOf (run (init 2) cancelTrace) 1 = Phase.done
      ∧ (run (init 2) cancelTrace).lock = none) := by
  refine ⟨?_, ?_, rfl, rfl, rfl⟩
  · intro i hi
    have hinv := lockInv_run acts (init n) (lockInv_init n)
    have hph := hinv.2 i hi
    refine ⟨hph, ?_⟩
    cases hp : phaseOf (run (init n) acts) i with
    | holdingLock =>
      have hlen := phase_lt_length (run (init n) acts) i (by rw [hp]; intro e; cases e)
      show (step (step (run (init n) acts) (Act.poll i)) (Act.poll i)).lock = none
      have e1 : step (run (init n) acts) (Act.poll i) =
          ⟨(run (init n) acts).tasks.set i Phase.dispatched, (run (init n) acts).lock⟩ := by
        simp only [step, hp]
      rw [e1]
      have e2 : phaseOf (⟨(run (init n) acts).tasks.set i Phase.dispatched,
          (run (init n) acts).lock⟩ : GState) i = Phase.dispatched :=
        getD_set_self (run (init n) acts).tasks i Phase.dispatched Phase.done hlen
      simp only [step, e2]
    | dispatched =>
      have hlen := phase_lt_length (run (init n) acts) i (by rw [hp]; intro e; cases e)
      show (step (step (run (init n) acts) (Act.poll i)) (Act.poll i)).lock = none
      have e1 : step (run (init n) acts) (Act.poll i) =
          ⟨(run (init n) acts).tasks.set i Phase.awaitingDown, none⟩ := by
        simp only [step, hp]
      rw [e1]
      have e2 : phaseOf (⟨(run (init n) acts).tasks.set i Phase.awaitingDown, none⟩ :
          GState) i = Phase.awaitingDown :=
        getD_set_self (run (init n) acts).tasks i Phase.awaitingDown Phase.done hlen
      simp only [step, e2]
    | start => rw [hp] at hph; cases hph
    | validating => rw [hp] at hph; cases hph
    | acquiring => rw [hp] at hph; cases hph
    | awaitingDown => rw [hp] at hph; cases hph
    | done => rw [hp] at hph; cases hph
    | cancelled => rw [hp] at hph; cases hph
  · intro j hnone hacq
    simp only [step, hacq, hnone]

/-- C9 witness: with the lock held by task 0 (two polls in), two further
polls of task 0 free it; and a task in `acquiring` with the lock free
acquires on its next poll. -/
theorem lock_never_leaked_w :
    (run (run (init 2) [Act.poll 0, Act.poll 0]) [Act.poll 0, Act.poll 0]).lock = none :=
  ((lock_never_leaked 2 [Act.poll 0, Act.poll 0]).1 0 (by decide)).2

/-- The outcome of one `poll_ready` invocation. -/
inductive PollReady (A : Type)
  | panicked (msg : String)
  | result (r : A)
deriving DecidableEq

/-- The `AuthenticationMiddleware::poll_ready` method (middleware.rs lines 180–188):
`self.service.try_lock().expect("AuthenticationMiddleware was called already").poll_ready(ctx)`.
`try_lock` fails exactly when the mutex is currently held, and `expect`
turns that failure into a panic with the given message; otherwise the
guard is taken and the inner service's `poll_ready` result `inner` is
returned. -/
def poll_ready {A : Type} (lock : Option Nat) (inner : A) : PollReady A :=
  match lock with
  | some _ => PollReady.panicked ("AuthenticationMiddleware was called already")
  | none => PollReady.result inner

/-- C10: if `poll_ready` runs while the internal service mutex is held
(a previous call's lock acquisition succeeded and is not yet released),
it panics with the message `"AuthenticationMiddleware was called
already"` — it does not return `Pending` or an error; when the mutex is
free, it returns the inner service's `poll_ready` result. -/
theorem poll_ready_panics {A : Type} (inner : A) :
    (∀ i : Nat, poll_ready (some i) inner =
      PollReady.panicked ("AuthenticationMiddleware was called already"))
    ∧ poll_ready (none : Option Nat) inner = PollReady.result inner :=
  ⟨fun _ => rfl, rfl⟩

end ActixWebHttpAuth
